import Mathlib

/-!
Verification of the vector similarity search layer of this repository
(`dense_embedding`): the in-memory `DocumentStore`, the `EmbeddingService`
similarity dispatch, and the `AnnoyIndex` construction state.

Python dictionaries (`dict[str, Document]`) are modelled as insertion-ordered
association lists: assigning to an existing key replaces the value in place
(keeping its position), assigning to a fresh key appends, and deletion removes
the entry.  Timestamps (`datetime.now()`) and generated UUIDs are threaded in
as explicit parameters.  Methods that mutate `self` are modelled as functions
from the store state to a result paired with the new state; read-only methods
return the state unchanged.  The scalar type of stored embedding vectors is a
type parameter `α` (the store never computes with vector entries).
-/

namespace DenseEmbedding

/-- `d.get(k, None)` on an insertion-ordered association list. -/
def dictGet {κ β : Type} [DecidableEq κ] : List (κ × β) → κ → Option β
  | [], _ => none
  | (k', v') :: rest, k => if k' = k then some v' else dictGet rest k

/-- `k in d`. -/
def dictHasKey {κ β : Type} [DecidableEq κ] (l : List (κ × β)) (k : κ) : Bool :=
  (dictGet l k).isSome

/-- `d[k] = v`: replace in place when the key is present, append otherwise
(CPython dicts keep the original position of an updated key). -/
def dictInsert {κ β : Type} [DecidableEq κ] : List (κ × β) → κ → β → List (κ × β)
  | [], k, v => [(k, v)]
  | (k', v') :: rest, k, v =>
      if k' = k then (k, v) :: rest else (k', v') :: dictInsert rest k v

/-- `del d[k]` (no-op when the key is absent). -/
def dictDelete {κ β : Type} [DecidableEq κ] : List (κ × β) → κ → List (κ × β)
  | [], _ => []
  | (k', v') :: rest, k =>
      if k' = k then rest else (k', v') :: dictDelete rest k

/-- In-place mutation of the value stored under `k` (as in
`self.documents[doc_id].embedding = embedding`). -/
def dictModify {κ β : Type} [DecidableEq κ] : List (κ × β) → κ → (β → β) → List (κ × β)
  | [], _, _ => []
  | (k', v') :: rest, k, f =>
      if k' = k then (k', f v') :: rest else (k', v') :: dictModify rest k f

/-- Keys of an association list, in order. -/
def dictKeys {κ β : Type} (l : List (κ × β)) : List κ := l.map Prod.fst

/-- Metadata dictionaries are opaque key-value maps. -/
abbrev Metadata := List (String × String)

/-- `Document.__init__`: `created_at` defaults to the current time (`now`),
`metadata` and `embedding` default to `None` at call sites. -/
structure Document (α : Type) where
  id : String
  text : String
  metadata : Option Metadata
  created_at : Nat
  embedding : Option (List α)
deriving DecidableEq

/-- The `Document(id, text, metadata=…, created_at=…, embedding=…)` constructor:
`self.created_at = created_at or datetime.now(…)`. -/
def Document.init {α : Type} (id text : String) (metadata : Option Metadata)
    (created_at : Option Nat) (now : Nat) (embedding : Option (List α)) : Document α :=
  { id := id, text := text, metadata := metadata,
    created_at := created_at.getD now, embedding := embedding }

/-- `DocumentStore.__init__`: `self.documents = dict()` (logging omitted: it
never touches `documents`). -/
structure DocumentStore (α : Type) where
  documents : List (String × Document α)
deriving DecidableEq

def emptyStore (α : Type) : DocumentStore α := ⟨[]⟩

/-- `add_document(text, doc_id=None, metadata=None)`.  A `None` `doc_id` is
replaced by a generated UUID, threaded in as `gen_id`; `now` is the current
time used by `Document.__init__`.  The body unconditionally executes
`self.documents[doc_id] = Document(doc_id, text, metadata=metadata)` and
returns `doc_id` (the collision branch only logs a warning). -/
def addDocument {α : Type} (s : DocumentStore α) (text : String)
    (doc_id : Option String) (gen_id : String) (metadata : Option Metadata)
    (now : Nat) : String × DocumentStore α :=
  let doc_id := doc_id.getD gen_id
  (doc_id, ⟨dictInsert s.documents doc_id (Document.init doc_id text metadata none now none)⟩)

/-- `get_document(doc_id)`: `self.documents.get(doc_id, None)`; no mutation. -/
def getDocument {α : Type} (s : DocumentStore α) (doc_id : String) :
    Option (Document α) × DocumentStore α :=
  (dictGet s.documents doc_id, s)

/-- `delete_document(doc_id)`: `del self.documents[doc_id]` and `True` when the
id is present, `False` otherwise. -/
def deleteDocument {α : Type} (s : DocumentStore α) (doc_id : String) :
    Bool × DocumentStore α :=
  if dictHasKey s.documents doc_id then
    (true, ⟨dictDelete s.documents doc_id⟩)
  else
    (false, s)

/-- `list_documents(limit=None)`: `list(self.documents.values())`, sliced to
`[:limit]` when a limit is given; no mutation. -/
def listDocuments {α : Type} (s : DocumentStore α) (limit : Option Nat) :
    List (Document α) × DocumentStore α :=
  let all_docs := s.documents.map Prod.snd
  (match limit with
   | some n => all_docs.take n
   | none => all_docs, s)

/-- `get_documents_by_ids(doc_ids)`: a loop appending each found document; no
mutation. -/
def getDocumentsByIds {α : Type} (s : DocumentStore α) (doc_ids : List String) :
    List (Document α) × DocumentStore α :=
  (doc_ids.foldl
    (fun docs doc_id =>
      match dictGet s.documents doc_id with
      | some doc => docs ++ [doc]
      | none => docs)
    [], s)

/-- `update_document_embedding(doc_id, embedding)`: sets
`self.documents[doc_id].embedding` and returns `True` when the id is present,
returns `False` otherwise. -/
def updateDocumentEmbedding {α : Type} (s : DocumentStore α) (doc_id : String)
    (embedding : List α) : Bool × DocumentStore α :=
  if dictHasKey s.documents doc_id then
    (true, ⟨dictModify s.documents doc_id (fun d => { d with embedding := some embedding })⟩)
  else
    (false, s)

/-- `get_size()`: `len(self.documents)`; no mutation. -/
def getSize {α : Type} (s : DocumentStore α) : Nat × DocumentStore α :=
  (s.documents.length, s)

/-! ### Sequences of store mutations

An `add_document` call is recorded with the id it effectively uses (the
caller-supplied one, or the generated UUID when the caller passed `None`),
together with the text, metadata and the wall-clock time of the call. -/

inductive StoreOp where
  | add (doc_id : String) (text : String) (metadata : Option Metadata) (now : Nat)
  | del (doc_id : String)
deriving DecidableEq

def StoreOp.opId : StoreOp → String
  | .add d _ _ _ => d
  | .del d => d

def StoreOp.isAdd : StoreOp → Bool
  | .add _ _ _ _ => true
  | .del _ => false

def applyOp {α : Type} (s : DocumentStore α) : StoreOp → DocumentStore α
  | .add d t m n => (addDocument s t (some d) d m n).2
  | .del d => (deleteDocument s d).2

def runOps {α : Type} (s : DocumentStore α) (ops : List StoreOp) : DocumentStore α :=
  ops.foldl applyOp s

/-- Does any operation in the sequence touch id `d`? -/
def touchesId (ops : List StoreOp) (d : String) : Bool :=
  ops.any (fun op => op.opId = d)

/-- The count the claim describes: `add_document` calls not followed (anywhere
later in the sequence) by a `delete_document` of the same id. -/
def nonDeletedAddCount : List StoreOp → Nat
  | [] => 0
  | op :: rest =>
      (if op.isAdd && !(rest.any fun op' => !op'.isAdd && op'.opId = op.opId) then 1 else 0)
      + nonDeletedAddCount rest

/-- `add_document` calls that are the last operation of the sequence on their
id (each id present at the end is counted exactly once, by its final add). -/
def lastAddCount : List StoreOp → Nat
  | [] => 0
  | op :: rest =>
      (if op.isAdd && !touchesId rest op.opId then 1 else 0) + lastAddCount rest

/-! ### Embedding service

`EmbeddingService` wraps an external BGE-M3 model; the model is modelled as a
black-box function from a batch of texts to the batch of dense vectors
(`embeddings["dense_vecs"]`).  `embedding_dim` is fixed by
`_initialize_model`. -/

structure EmbeddingService where
  model : List String → List (List Float)
  embedding_dim : Nat

/-- `get_embedding_dimension()`. -/
def get_embedding_dimension (svc : EmbeddingService) : Nat :=
  svc.embedding_dim

/-- `encode_text(text, return_sparse=False, return_colbert=False)`.  The body
encodes the text, binds `dense_vec = embeddings["dense_vecs"][0]`, and then
falls off the end of the function without a `return` statement, so the call
evaluates to `None` — modelled as `none`. -/
def encode_text (svc : EmbeddingService) (text : String)
    (return_sparse : Bool) (return_colbert : Bool) : Option (List Float) :=
  let embeddings := svc.model [text]
  let dense_vec := embeddings.headD []
  none

/-- `np.dot` on 1-d vectors: the sum of pointwise products. -/
def npDot (v1 v2 : List Float) : Float :=
  (List.zipWith (fun a b => a * b) v1 v2).foldl (fun a b => a + b) 0.0

/-- `np.linalg.norm`: the Euclidean norm. -/
def npNorm (v : List Float) : Float :=
  Float.sqrt ((v.map (fun a => a * a)).foldl (fun a b => a + b) 0.0)

/-- Pointwise vector difference `vec1 - vec2`. -/
def vecSub (v1 v2 : List Float) : List Float :=
  List.zipWith (fun a b => a - b) v1 v2

/-- Python `str.lower()` (the metric names of interest are ASCII). -/
def pyLower (s : String) : String := ⟨s.data.map Char.toLower⟩

/-- `compute_similarity(vec1, vec2, metric="cosine")`: dispatch on
`metric.lower()` (Python `match`/`case` on string literals is sequential
equality testing); any unrecognised metric raises `ValueError`, modelled as
`Except.error` carrying the exception message. -/
def compute_similarity (vec1 vec2 : List Float) (metric : String) : Except String Float :=
  if pyLower metric = "cosine" then
    let dot_product := npDot vec1 vec2
    let norm1 := npNorm vec1
    let norm2 := npNorm vec2
    .ok (dot_product / (norm1 * norm2))
  else if pyLower metric = "euclidean" then
    .ok (-(npNorm (vecSub vec1 vec2)))
  else if pyLower metric = "dot" then
    .ok (npDot vec1 vec2)
  else
    .error ("Unsupported similarity metric: " ++ metric ++ ", valid metrics: cosine, edclidean, dot")

/-! ### ANNOY index -/

/-- State created by `AnnoyIndex.__init__` (the wrapped `annoy.AnnoyIndex`
handle itself is opaque and carries no observable state before any item is
added). -/
structure AnnoyIndex where
  dimension : Nat
  n_trees : Nat
  metric : String
  id_to_index : List (String × Nat)
  index_to_id : List (Nat × String)
  vectors_cache : List (Nat × List Float)
  next_index : Nat
  is_built : Bool

/-- `AnnoyIndex.__init__(dimension, n_trees=50, metric="angular", …)`. -/
def AnnoyIndex.init (dimension n_trees : Nat) (metric : String) : AnnoyIndex :=
  { dimension := dimension, n_trees := n_trees, metric := metric,
    id_to_index := [], index_to_id := [], vectors_cache := [],
    next_index := 0, is_built := false }

/-- Modelled from the spec: `AnnoyIndex.add_item` is only declared (the
abstract `VectorIndex.add_item` stub; `AnnoyIndex` implements no methods), so
the body follows §4.2 of the spec: reject with `DimensionMismatch` and no
mutation when `len(vector) != dimension`, otherwise assign the next internal
id, record the `doc_id ↔ internal_id` mapping, cache the vector, and leave the
structure unbuilt.  The result is the (possibly unchanged) state paired with
the call's outcome. -/
def AnnoyIndex.add_item (idx : AnnoyIndex) (doc_id : String) (vector : List Float) :
    AnnoyIndex × Except String Unit :=
  if vector.length ≠ idx.dimension then
    (idx, .error "DimensionMismatch")
  else
    ({ idx with
        id_to_index := dictInsert idx.id_to_index doc_id idx.next_index,
        index_to_id := dictInsert idx.index_to_id idx.next_index doc_id,
        vectors_cache := dictInsert idx.vectors_cache idx.next_index vector,
        next_index := idx.next_index + 1,
        is_built := false }, .ok ())

/-- `get_size` of the index, per §4.2: count of live items. -/
def AnnoyIndex.get_size (idx : AnnoyIndex) : Nat :=
  idx.id_to_index.length

/-- A concrete two-document store used to instantiate theorems with
hypotheses at explicit inputs. -/
def sampleStore : DocumentStore Nat :=
  ⟨[("a", Document.init "a" "alpha" none (some 1) 0 none),
    ("b", Document.init "b" "beta" none (some 2) 0 (some [3]))]⟩

/-! ## Lemmas about the dictionary model -/

theorem dictGet_dictInsert_self {κ β : Type} [DecidableEq κ] (l : List (κ × β)) (k : κ) (v : β) :
    dictGet (dictInsert l k v) k = some v := by
  induction l with
  | nil => simp [dictInsert, dictGet]
  | cons kv rest ih =>
    obtain ⟨k', v'⟩ := kv
    by_cases h : k' = k
    · simp [dictInsert, dictGet, h]
    · simp [dictInsert, dictGet, h, ih]

theorem dictGet_dictInsert_ne {κ β : Type} [DecidableEq κ] (l : List (κ × β)) (k j : κ) (v : β)
    (h : j ≠ k) : dictGet (dictInsert l k v) j = dictGet l j := by
  induction l with
  | nil => simp [dictInsert, dictGet, Ne.symm h]
  | cons kv rest ih =>
    obtain ⟨k', v'⟩ := kv
    by_cases hk : k' = k
    · subst hk
      simp [dictInsert, dictGet, Ne.symm h]
    · simp only [dictInsert, if_neg hk, dictGet]
      by_cases hj : k' = j
      · simp [hj]
      · simp [hj, ih]

theorem dictHasKey_iff_mem {κ β : Type} [DecidableEq κ] (l : List (κ × β)) (k : κ) :
    dictHasKey l k = true ↔ k ∈ dictKeys l := by
  induction l with
  | nil => simp [dictHasKey, dictGet, dictKeys]
  | cons kv rest ih =>
    obtain ⟨k', v'⟩ := kv
    by_cases h : k' = k
    · simp [dictHasKey, dictGet, dictKeys, h]
    · rw [show dictHasKey ((k', v') :: rest) k = dictHasKey rest k from by
        simp [dictHasKey, dictGet, h]]
      rw [ih]
      simp [dictKeys, Ne.symm h]

theorem dictKeys_dictInsert {κ β : Type} [DecidableEq κ] (l : List (κ × β)) (k : κ) (v : β) :
    dictKeys (dictInsert l k v)
      = if dictHasKey l k then dictKeys l else dictKeys l ++ [k] := by
  induction l with
  | nil => simp [dictInsert, dictKeys, dictHasKey, dictGet]
  | cons kv rest ih =>
    obtain ⟨k', v'⟩ := kv
    by_cases h : k' = k
    · simp [dictInsert, dictKeys, dictHasKey, dictGet, h]
    · have hstep : dictInsert ((k', v') :: rest) k v = (k', v') :: dictInsert rest k v := by
        simp [dictInsert, h]
      have hh : dictHasKey ((k', v') :: rest) k = dictHasKey rest k := by
        simp [dictHasKey, dictGet, h]
      rw [hstep, hh,
        show dictKeys ((k', v') :: dictInsert rest k v)
          = k' :: dictKeys (dictInsert rest k v) from rfl, ih]
      by_cases hr : dictHasKey rest k
      · simp [hr, dictKeys]
      · simp [hr, dictKeys]

theorem mem_dictKeys_dictDelete {κ β : Type} [DecidableEq κ] (l : List (κ × β)) (k x : κ) :
    x ∈ dictKeys (dictDelete l k) → x ∈ dictKeys l := by
  induction l with
  | nil => simp [dictDelete]
  | cons kv rest ih =>
    obtain ⟨k', v'⟩ := kv
    by_cases h : k' = k
    · simp only [dictDelete, if_pos h, dictKeys, List.map_cons, List.mem_cons]
      exact fun hx => Or.inr hx
    · simp only [dictDelete, if_neg h, dictKeys, List.map_cons, List.mem_cons]
      rintro (hx | hx)
      · exact Or.inl hx
      · exact Or.inr (ih hx)

theorem nodup_dictKeys_dictInsert {κ β : Type} [DecidableEq κ] (l : List (κ × β)) (k : κ) (v : β)
    (h : (dictKeys l).Nodup) : (dictKeys (dictInsert l k v)).Nodup := by
  rw [dictKeys_dictInsert]
  by_cases hk : dictHasKey l k
  · simpa [hk] using h
  · have hk' : k ∉ dictKeys l := fun hm => hk ((dictHasKey_iff_mem l k).mpr hm)
    simp only [hk, if_false, Bool.false_eq_true]
    exact List.Nodup.append h (List.nodup_singleton k) (by simpa using hk')

theorem nodup_dictKeys_dictDelete {κ β : Type} [DecidableEq κ] (l : List (κ × β)) (k : κ)
    (h : (dictKeys l).Nodup) : (dictKeys (dictDelete l k)).Nodup := by
  induction l with
  | nil => simp [dictDelete, dictKeys]
  | cons kv rest ih =>
    obtain ⟨k', v'⟩ := kv
    simp only [dictKeys, List.map_cons, List.nodup_cons] at h
    by_cases hk : k' = k
    · simpa [dictDelete, hk, dictKeys] using h.2
    · simp only [dictDelete, if_neg hk, dictKeys, List.map_cons, List.nodup_cons]
      exact ⟨fun hm => h.1 (mem_dictKeys_dictDelete rest k k' hm), ih h.2⟩

theorem dictKeys_dictModify {κ β : Type} [DecidableEq κ] (l : List (κ × β)) (k : κ) (f : β → β) :
    dictKeys (dictModify l k f) = dictKeys l := by
  induction l with
  | nil => simp [dictModify]
  | cons kv rest ih =>
    obtain ⟨k', v'⟩ := kv
    by_cases h : k' = k
    · simp [dictModify, dictKeys, h]
    · simp only [dictModify, if_neg h]
      show k' :: dictKeys (dictModify rest k f) = k' :: dictKeys rest
      rw [ih]

theorem dictGet_dictDelete_self {κ β : Type} [DecidableEq κ] (l : List (κ × β)) (k : κ)
    (h : (dictKeys l).Nodup) : dictGet (dictDelete l k) k = none := by
  induction l with
  | nil => simp [dictDelete, dictGet]
  | cons kv rest ih =>
    obtain ⟨k', v'⟩ := kv
    simp only [dictKeys, List.map_cons, List.nodup_cons] at h
    by_cases hk : k' = k
    · subst hk
      simp only [dictDelete, if_pos rfl]
      cases hg : dictGet rest k' with
      | none => exact hg
      | some w =>
        exfalso
        exact h.1 ((dictHasKey_iff_mem rest k').mp (by simp [dictHasKey, hg]))
    · simp only [dictDelete, if_neg hk, dictGet, if_neg hk]
      exact ih h.2

theorem dictGet_dictDelete_ne {κ β : Type} [DecidableEq κ] (l : List (κ × β)) (k j : κ)
    (h : j ≠ k) : dictGet (dictDelete l k) j = dictGet l j := by
  induction l with
  | nil => simp [dictDelete]
  | cons kv rest ih =>
    obtain ⟨k', v'⟩ := kv
    by_cases hk : k' = k
    · subst hk
      simp [dictDelete, dictGet, Ne.symm h]
    · simp only [dictDelete, if_neg hk, dictGet]
      by_cases hj : k' = j
      · simp [hj]
      · simp [hj, ih]

theorem dictGet_dictModify_self {κ β : Type} [DecidableEq κ] (l : List (κ × β)) (k : κ)
    (f : β → β) : dictGet (dictModify l k f) k = (dictGet l k).map f := by
  induction l with
  | nil => simp [dictModify, dictGet]
  | cons kv rest ih =>
    obtain ⟨k', v'⟩ := kv
    by_cases hk : k' = k
    · simp [dictModify, dictGet, hk]
    · simp [dictModify, dictGet, hk, ih]

theorem dictGet_dictModify_ne {κ β : Type} [DecidableEq κ] (l : List (κ × β)) (k j : κ)
    (f : β → β) (h : j ≠ k) : dictGet (dictModify l k f) j = dictGet l j := by
  induction l with
  | nil => simp [dictModify]
  | cons kv rest ih =>
    obtain ⟨k', v'⟩ := kv
    by_cases hk : k' = k
    · subst hk
      simp [dictModify, dictGet, Ne.symm h]
    · simp only [dictModify, if_neg hk, dictGet]
      by_cases hj : k' = j
      · simp [hj]
      · simp [hj, ih]

theorem mem_dictInsert {κ β : Type} [DecidableEq κ] (l : List (κ × β)) (k : κ) (v : β)
    (p : κ × β) (h : p ∈ dictInsert l k v) : p ∈ l ∨ p = (k, v) := by
  induction l with
  | nil =>
    rw [show dictInsert ([] : List (κ × β)) k v = [(k, v)] from rfl] at h
    exact Or.inr (by simpa using h)
  | cons kv rest ih =>
    obtain ⟨k', v'⟩ := kv
    by_cases hk : k' = k
    · rw [show dictInsert ((k', v') :: rest) k v = (k, v) :: rest from by
        simp [dictInsert, hk]] at h
      rcases List.mem_cons.mp h with h | h
      · exact Or.inr h
      · exact Or.inl (List.mem_cons_of_mem _ h)
    · rw [show dictInsert ((k', v') :: rest) k v = (k', v') :: dictInsert rest k v from by
        simp [dictInsert, hk]] at h
      rcases List.mem_cons.mp h with h | h
      · exact Or.inl (h ▸ List.mem_cons_self _ _)
      · rcases ih h with h | h
        · exact Or.inl (List.mem_cons_of_mem _ h)
        · exact Or.inr h

/-! ### Counting lemmas for C1 -/

theorem countP_of_not_mem {p : String → Bool} {d : String} :
    ∀ (l : List String), d ∉ l →
      l.countP (fun x => !(d = x : Bool) && p x) = l.countP p := by
  intro l hd
  induction l with
  | nil => rfl
  | cons a as ih =>
    have hne : d ≠ a := fun hh => hd (hh ▸ List.mem_cons_self a as)
    have hrest : d ∉ as := fun hh => hd (List.mem_cons_of_mem a hh)
    rw [List.countP_cons, List.countP_cons, ih hrest]
    simp [hne]

theorem countP_dictKeys_dictInsert {β : Type} (p : String → Bool) (d : String) (v : β) :
    ∀ (l : List (String × β)), (dictKeys l).Nodup →
      (dictKeys (dictInsert l d v)).countP p
        = (dictKeys l).countP (fun x => !(d = x : Bool) && p x)
          + (if p d then 1 else 0) := by
  intro l
  induction l with
  | nil =>
    intro _
    simp [dictInsert, dictKeys, List.countP_cons, List.countP_nil]
  | cons kv rest ih =>
    intro hnd
    obtain ⟨k', v'⟩ := kv
    simp only [dictKeys, List.map_cons, List.nodup_cons] at hnd
    by_cases hk : k' = d
    · subst hk
      rw [show dictInsert ((k', v') :: rest) k' v = (k', v) :: rest from by
        simp [dictInsert]]
      rw [show dictKeys ((k', v) :: rest) = k' :: dictKeys rest from rfl,
        show dictKeys ((k', v') :: rest) = k' :: dictKeys rest from rfl,
        List.countP_cons, List.countP_cons, countP_of_not_mem (dictKeys rest) hnd.1]
      simp [Nat.add_comm]
    · rw [show dictInsert ((k', v') :: rest) d v = (k', v') :: dictInsert rest d v from by
        simp [dictInsert, hk]]
      rw [show dictKeys ((k', v') :: dictInsert rest d v)
            = k' :: dictKeys (dictInsert rest d v) from rfl,
        show dictKeys ((k', v') :: rest) = k' :: dictKeys rest from rfl,
        List.countP_cons, List.countP_cons, ih hnd.2]
      have : (!(d = k' : Bool) && p k') = p k' := by
        simp [Ne.symm hk]
      rw [this]
      omega

theorem countP_dictKeys_dictDelete {β : Type} (p : String → Bool) (d : String) :
    ∀ (l : List (String × β)), (dictKeys l).Nodup →
      (dictKeys (dictDelete l d)).countP p
        = (dictKeys l).countP (fun x => !(d = x : Bool) && p x) := by
  intro l
  induction l with
  | nil => intro _; rfl
  | cons kv rest ih =>
    intro hnd
    obtain ⟨k', v'⟩ := kv
    simp only [dictKeys, List.map_cons, List.nodup_cons] at hnd
    by_cases hk : k' = d
    · subst hk
      rw [show dictDelete ((k', v') :: rest) k' = rest from by simp [dictDelete],
        show dictKeys ((k', v') :: rest) = k' :: dictKeys rest from rfl,
        List.countP_cons, countP_of_not_mem (dictKeys rest) hnd.1]
      simp
    · rw [show dictDelete ((k', v') :: rest) d = (k', v') :: dictDelete rest d from by
        simp [dictDelete, hk],
        show dictKeys ((k', v') :: dictDelete rest d)
          = k' :: dictKeys (dictDelete rest d) from rfl,
        show dictKeys ((k', v') :: rest) = k' :: dictKeys rest from rfl,
        List.countP_cons, List.countP_cons, ih hnd.2]
      have : (!(d = k' : Bool) && p k') = p k' := by
        simp [Ne.symm hk]
      rw [this]

theorem nodup_dictKeys_applyOp {α : Type} (s : DocumentStore α) (op : StoreOp)
    (h : (dictKeys s.documents).Nodup) : (dictKeys (applyOp s op).documents).Nodup := by
  cases op with
  | add d t m n => exact nodup_dictKeys_dictInsert s.documents d _ h
  | del d =>
    by_cases hk : dictHasKey s.documents d
    · have hdel : (applyOp s (StoreOp.del d)).documents = dictDelete s.documents d := by
        simp [applyOp, deleteDocument, hk]
      rw [hdel]
      exact nodup_dictKeys_dictDelete s.documents d h
    · have hdel : (applyOp s (StoreOp.del d)).documents = s.documents := by
        simp [applyOp, deleteDocument, hk]
      rw [hdel]
      exact h

/-- The size of the store after a sequence of operations: each operation id
that is last touched by an add contributes one document, plus the keys of the
starting store untouched by the sequence. -/
theorem getSize_runOps {α : Type} :
    ∀ (ops : List StoreOp) (s : DocumentStore α), (dictKeys s.documents).Nodup →
      (getSize (runOps s ops)).1
        = lastAddCount ops
          + (dictKeys s.documents).countP (fun x => !touchesId ops x) := by
  intro ops
  induction ops with
  | nil =>
    intro s _
    simp [getSize, runOps, lastAddCount, touchesId, dictKeys, List.countP_true]
  | cons op rest ih =>
    intro s hnd
    have hrun : runOps s (op :: rest) = runOps (applyOp s op) rest := rfl
    rw [hrun, ih (applyOp s op) (nodup_dictKeys_applyOp s op hnd)]
    cases op with
    | add d t m n =>
      have hins : (applyOp s (StoreOp.add d t m n)).documents
          = dictInsert s.documents d (Document.init d t m none n none) := rfl
      rw [hins,
        countP_dictKeys_dictInsert (fun x => !touchesId rest x) d _ s.documents hnd]
      have hc : (dictKeys s.documents).countP
            (fun x => !touchesId (StoreOp.add d t m n :: rest) x)
          = (dictKeys s.documents).countP
            (fun x => !(d = x : Bool) && !touchesId rest x) := by
        apply List.countP_congr
        intro x _
        simp [touchesId, StoreOp.opId, Bool.not_or]
      rw [show lastAddCount (StoreOp.add d t m n :: rest)
            = (if !touchesId rest d then 1 else 0) + lastAddCount rest from by
          simp [lastAddCount, StoreOp.isAdd, StoreOp.opId],
        hc]
      omega
    | del d =>
      have hc : (dictKeys s.documents).countP
            (fun x => !touchesId (StoreOp.del d :: rest) x)
          = (dictKeys s.documents).countP
            (fun x => !(d = x : Bool) && !touchesId rest x) := by
        apply List.countP_congr
        intro x _
        simp [touchesId, StoreOp.opId, Bool.not_or]
      rw [show lastAddCount (StoreOp.del d :: rest) = lastAddCount rest from by
          simp [lastAddCount, StoreOp.isAdd],
        hc]
      by_cases hk : dictHasKey s.documents d
      · have hdel : (applyOp s (StoreOp.del d)).documents = dictDelete s.documents d := by
          simp [applyOp, deleteDocument, hk]
        rw [hdel, countP_dictKeys_dictDelete (fun x => !touchesId rest x) d s.documents hnd]
      · have hdel : (applyOp s (StoreOp.del d)).documents = s.documents := by
          simp [applyOp, deleteDocument, hk]
        have hmem : d ∉ dictKeys s.documents := fun hm => hk ((dictHasKey_iff_mem _ _).mpr hm)
        rw [hdel, countP_of_not_mem (dictKeys s.documents) hmem]

theorem foldl_getDocs_append {α : Type} (s : DocumentStore α) :
    ∀ (doc_ids : List String) (acc : List (Document α)),
      doc_ids.foldl
        (fun docs doc_id =>
          match dictGet s.documents doc_id with
          | some doc => docs ++ [doc]
          | none => docs) acc
      = acc ++ doc_ids.filterMap (fun i => dictGet s.documents i) := by
  intro doc_ids
  induction doc_ids with
  | nil => intro acc; simp
  | cons i rest ih =>
    intro acc
    rw [List.foldl_cons, List.filterMap_cons]
    cases h : dictGet s.documents i with
    | none => simp only [h]; rw [ih]
    | some doc => simp only [h]; rw [ih]; simp

/-! ## The claims -/

/-- C1, counterexample: adding the same id twice (never deleting it) gives
`store.size() = 1`, while two of the `add_document` calls in the sequence have
a document that was not subsequently deleted, so the claimed count is `2`. -/
theorem c1_counterexample :
    (getSize (runOps (emptyStore Nat)
        [StoreOp.add "d" "t" none 0, StoreOp.add "d" "t" none 0])).1
      ≠ nonDeletedAddCount
          [StoreOp.add "d" "t" none 0, StoreOp.add "d" "t" none 0] := by
  decide

/-- C1, amended: for every sequence of `add_document`/`delete_document` calls
on an initially empty store, `store.size()` afterwards equals the number of
`add_document` calls that are the last operation of the sequence on their id
(an id re-added several times is counted once, by its final add, provided no
later delete of that id follows). -/
theorem c1_size_eq_lastAddCount {α : Type} (ops : List StoreOp) :
    (getSize (runOps (emptyStore α) ops)).1 = lastAddCount ops := by
  have h := getSize_runOps ops (emptyStore α) (by simp [emptyStore, dictKeys])
  simpa [emptyStore, dictKeys] using h

/-- C2, counterexample: a store holds document `D` with `created_at = 5` and
embedding `[7]`; after `add_document("new", "D")` at time `9` the stored
`created_at` is `9` and the embedding is `None`, so neither field was left
unchanged as the claim states. -/
theorem c2_counterexample :
    ¬ ((((getDocument (addDocument
            (⟨[("D", Document.init "D" "old" none (some 5) 0 (some [7]))]⟩ : DocumentStore Nat)
            "new" (some "D") "g" none 9).2 "D").1).map Document.created_at
          = some 5)
        ∧ (((getDocument (addDocument
            (⟨[("D", Document.init "D" "old" none (some 5) 0 (some [7]))]⟩ : DocumentStore Nat)
            "new" (some "D") "g" none 9).2 "D").1).bind Document.embedding
          = some [7])) := by
  decide

/-- C2, amended: re-adding an existing id replaces the stored document
wholesale: text and metadata are overwritten, `created_at` is reset to the
time of the re-add, and the embedding is cleared to `None`; all other
documents are untouched. -/
theorem c2_readd_replaces_document {α : Type} (s : DocumentStore α)
    (text gen_id D : String) (metadata : Option Metadata) (now : Nat)
    (h : dictHasKey s.documents D = true) :
    (getDocument (addDocument s text (some D) gen_id metadata now).2 D).1
      = some (Document.init D text metadata none now none)
    ∧ ∀ j, j ≠ D →
        (getDocument (addDocument s text (some D) gen_id metadata now).2 j).1
          = (getDocument s j).1 := by
  constructor
  · exact dictGet_dictInsert_self s.documents D _
  · intro j hj
    exact dictGet_dictInsert_ne s.documents D j _ hj

theorem c2_witness :
    (getDocument (addDocument sampleStore "new" (some "b") "g" none 9).2 "b").1
      = some (Document.init "b" "new" none none 9 none)
    ∧ (getDocument (addDocument sampleStore "new" (some "b") "g" none 9).2 "a").1
      = (getDocument sampleStore "a").1 :=
  ⟨(c2_readd_replaces_document sampleStore "new" "g" "b" none 9 (by decide)).1,
    (c2_readd_replaces_document sampleStore "new" "g" "b" none 9 (by decide)).2
      "a" (by decide)⟩

/-- C3: `encode_text` binds the dense vector but falls off the end of its body
without a `return` statement, so every call returns `None` — never the dense
vector of length `get_embedding_dimension` that the claim (and the function's
own signature and docstring) describe. -/
theorem c3_encode_text_returns_none (svc : EmbeddingService) (text : String)
    (rs rc : Bool) : encode_text svc text rs rc = none := rfl

/-- C4: `add_item` on an index of dimension `d` with a vector of a different
length fails with `DimensionMismatch` and leaves the index state (counts and
id mappings) unchanged.  (`AnnoyIndex.add_item` is modelled from the spec: the
source only declares the abstract stub.) -/
theorem c4_add_item_dimension_mismatch (idx : AnnoyIndex) (doc_id : String)
    (vector : List Float) (h : vector.length ≠ idx.dimension) :
    AnnoyIndex.add_item idx doc_id vector = (idx, Except.error "DimensionMismatch") := by
  simp [AnnoyIndex.add_item, h]

theorem c4_witness :
    AnnoyIndex.add_item (AnnoyIndex.init 4 50 "angular") "doc" [1.0, 2.0, 3.0]
      = (AnnoyIndex.init 4 50 "angular", Except.error "DimensionMismatch") :=
  c4_add_item_dimension_mismatch (AnnoyIndex.init 4 50 "angular") "doc"
    [1.0, 2.0, 3.0] (by decide)

/-- C5: `get_documents_by_ids` returns exactly the documents whose ids are in
the store, in the order the ids appear in the input (absent ids skipped), and
`list_documents(limit)` is the insertion-ordered listing truncated to at most
`limit` documents. -/
theorem c5_query_results_ordered {α : Type} (s : DocumentStore α)
    (doc_ids : List String) (n : Nat) :
    (getDocumentsByIds s doc_ids).1 = doc_ids.filterMap (fun i => (getDocument s i).1)
    ∧ (listDocuments s (some n)).1 = ((listDocuments s none).1).take n
    ∧ ((listDocuments s (some n)).1).length ≤ n := by
  refine ⟨?_, rfl, ?_⟩
  · simpa [getDocumentsByIds] using foldl_getDocs_append s doc_ids []
  · show ((s.documents.map Prod.snd).take n).length ≤ n
    rw [List.length_take]
    exact Nat.min_le_left _ _

/-- C6: `delete_document` returns `True` and removes exactly the requested
document when the id is present, and returns `False` leaving the store
untouched when it is absent. -/
theorem c6_delete_document {α : Type} (s : DocumentStore α) (doc_id : String)
    (hnd : (dictKeys s.documents).Nodup) :
    (dictHasKey s.documents doc_id = true →
      (deleteDocument s doc_id).1 = true
      ∧ (getDocument (deleteDocument s doc_id).2 doc_id).1 = none
      ∧ ∀ j, j ≠ doc_id →
          (getDocument (deleteDocument s doc_id).2 j).1 = (getDocument s j).1)
    ∧ (dictHasKey s.documents doc_id = false →
        deleteDocument s doc_id = (false, s)) := by
  constructor
  · intro hk
    have h2 : (deleteDocument s doc_id).2 = ⟨dictDelete s.documents doc_id⟩ := by
      simp [deleteDocument, hk]
    refine ⟨by simp [deleteDocument, hk], ?_, ?_⟩
    · rw [h2]
      exact dictGet_dictDelete_self s.documents doc_id hnd
    · intro j hj
      rw [h2]
      exact dictGet_dictDelete_ne s.documents doc_id j hj
  · intro hk
    simp [deleteDocument, hk]

theorem c6_witness :
    (deleteDocument sampleStore "a").1 = true
    ∧ (getDocument (deleteDocument sampleStore "a").2 "a").1 = none
    ∧ (getDocument (deleteDocument sampleStore "a").2 "b").1 = (getDocument sampleStore "b").1
    ∧ deleteDocument sampleStore "zzz" = (false, sampleStore) :=
  ⟨((c6_delete_document sampleStore "a" (by decide)).1 (by decide)).1,
    ((c6_delete_document sampleStore "a" (by decide)).1 (by decide)).2.1,
    ((c6_delete_document sampleStore "a" (by decide)).1 (by decide)).2.2 "b" (by decide),
    (c6_delete_document sampleStore "zzz" (by decide)).2 (by decide)⟩

/-- C7: `update_document_embedding` returns `True` and sets exactly the
requested document's embedding field (all other fields and documents
untouched) when the id is present, and returns `False` without mutating the
store when it is absent. -/
theorem c7_update_embedding {α : Type} (s : DocumentStore α) (doc_id : String)
    (embedding : List α) :
    (dictHasKey s.documents doc_id = true →
      (updateDocumentEmbedding s doc_id embedding).1 = true
      ∧ (getDocument (updateDocumentEmbedding s doc_id embedding).2 doc_id).1
          = ((getDocument s doc_id).1).map
              (fun d => { d with embedding := some embedding })
      ∧ ∀ j, j ≠ doc_id →
          (getDocument (updateDocumentEmbedding s doc_id embedding).2 j).1
            = (getDocument s j).1)
    ∧ (dictHasKey s.documents doc_id = false →
        updateDocumentEmbedding s doc_id embedding = (false, s)) := by
  constructor
  · intro hk
    have h2 : (updateDocumentEmbedding s doc_id embedding).2
        = ⟨dictModify s.documents doc_id
            (fun d => { d with embedding := some embedding })⟩ := by
      simp [updateDocumentEmbedding, hk]
    refine ⟨by simp [updateDocumentEmbedding, hk], ?_, ?_⟩
    · rw [h2]
      exact dictGet_dictModify_self s.documents doc_id _
    · intro j hj
      rw [h2]
      exact dictGet_dictModify_ne s.documents doc_id j _ hj
  · intro hk
    simp [updateDocumentEmbedding, hk]

theorem c7_witness :
    (updateDocumentEmbedding sampleStore "a" [42]).1 = true
    ∧ (getDocument (updateDocumentEmbedding sampleStore "a" [42]).2 "a").1
        = ((getDocument sampleStore "a").1).map
            (fun d => { d with embedding := some [42] })
    ∧ (getDocument (updateDocumentEmbedding sampleStore "a" [42]).2 "b").1
        = (getDocument sampleStore "b").1
    ∧ updateDocumentEmbedding sampleStore "zzz" [42] = (false, sampleStore) :=
  ⟨((c7_update_embedding sampleStore "a" [42]).1 (by decide)).1,
    ((c7_update_embedding sampleStore "a" [42]).1 (by decide)).2.1,
    ((c7_update_embedding sampleStore "a" [42]).1 (by decide)).2.2 "b" (by decide),
    (c7_update_embedding sampleStore "zzz" [42]).2 (by decide)⟩

/-- C8: re-adding an existing id keeps the document's position in the store's
iteration order: `list_documents` enumerates the same ids in the same order
before and after the re-add.  (`hw` is the store's key invariant: every entry
is stored under its document's id, as `add_document` always arranges.) -/
theorem c8_readd_preserves_order {α : Type} (s : DocumentStore α)
    (text gen_id d : String) (metadata : Option Metadata) (now : Nat)
    (hk : dictHasKey s.documents d = true)
    (hw : ∀ p ∈ s.documents, p.1 = p.2.id) :
    ((listDocuments (addDocument s text (some d) gen_id metadata now).2 none).1).map
        Document.id
      = ((listDocuments s none).1).map Document.id := by
  have hmapL : ∀ (l : List (String × Document α)), (∀ p ∈ l, p.1 = p.2.id) →
      (l.map Prod.snd).map Document.id = dictKeys l := by
    intro l hl
    rw [List.map_map]
    exact List.map_congr_left (fun p hp => (hl p hp).symm)
  have hw' : ∀ p ∈ dictInsert s.documents d (Document.init d text metadata none now none),
      p.1 = p.2.id := by
    intro p hp
    rcases mem_dictInsert _ _ _ p hp with h | h
    · exact hw p h
    · rw [h]
      rfl
  rw [show ((listDocuments (addDocument s text (some d) gen_id metadata now).2 none).1)
        = (dictInsert s.documents d
            (Document.init d text metadata none now none)).map Prod.snd from rfl,
    show ((listDocuments s none).1) = s.documents.map Prod.snd from rfl,
    hmapL _ hw', hmapL _ hw, dictKeys_dictInsert, if_pos hk]

theorem c8_witness :
    ((listDocuments (addDocument sampleStore "new" (some "a") "g" none 7).2 none).1).map
        Document.id
      = ((listDocuments sampleStore none).1).map Document.id :=
  c8_readd_preserves_order sampleStore "new" "g" "a" none 7 (by decide) (by decide)

/-- C9: the read operations `get_document`, `list_documents`,
`get_documents_by_ids` and `get_size` never modify the store: the id-to-document
mapping after each call is the one before it. -/
theorem c9_reads_pure {α : Type} (s : DocumentStore α) (doc_id : String)
    (doc_ids : List String) (limit : Option Nat) :
    (getDocument s doc_id).2 = s
    ∧ (listDocuments s limit).2 = s
    ∧ (getDocumentsByIds s doc_ids).2 = s
    ∧ (getSize s).2 = s :=
  ⟨rfl, rfl, rfl, rfl⟩

/-- C10: `compute_similarity` accepts the metric names "cosine", "euclidean"
and "dot" case-insensitively (dispatch is on `metric.lower()`) and returns a
float for them, and raises `ValueError` for every other metric string
(modelled as `Except.error` with the exception message; vectors of equal
length, since NumPy itself rejects mismatched operand shapes). -/
theorem c10_compute_similarity_metrics (vec1 vec2 : List Float) (metric : String)
    (hlen : vec1.length = vec2.length) :
    ((pyLower metric = "cosine" ∨ pyLower metric = "euclidean" ∨ pyLower metric = "dot") →
      ∃ x, compute_similarity vec1 vec2 metric = Except.ok x)
    ∧ ((pyLower metric ≠ "cosine" ∧ pyLower metric ≠ "euclidean" ∧ pyLower metric ≠ "dot") →
      compute_similarity vec1 vec2 metric
        = Except.error ("Unsupported similarity metric: " ++ metric
            ++ ", valid metrics: cosine, edclidean, dot")) := by
  constructor
  · rintro (h | h | h)
    · exact ⟨npDot vec1 vec2 / (npNorm vec1 * npNorm vec2),
        by simp [compute_similarity, h]⟩
    · exact ⟨-(npNorm (vecSub vec1 vec2)), by simp [compute_similarity, h]⟩
    · exact ⟨npDot vec1 vec2, by simp [compute_similarity, h]⟩
  · rintro ⟨h1, h2, h3⟩
    simp [compute_similarity, h1, h2, h3]

theorem c10_witness :
    (∃ x, compute_similarity [1.0, 2.0] [3.0, 4.0] "COSINE" = Except.ok x)
    ∧ compute_similarity [1.0] [2.0] "manhattan"
        = Except.error ("Unsupported similarity metric: " ++ "manhattan"
            ++ ", valid metrics: cosine, edclidean, dot") :=
  ⟨(c10_compute_similarity_metrics [1.0, 2.0] [3.0, 4.0] "COSINE" rfl).1
      (Or.inl (by decide)),
    (c10_compute_similarity_metrics [1.0] [2.0] "manhattan" rfl).2
      ⟨by decide, by decide, by decide⟩⟩

end DenseEmbedding
